import Mathlib

unseal Rat.add Rat.mul Rat.inv Rat.sub

deriving instance DecidableEq for Except

/-!
# Verification of the MPI-Performance-Reports pipeline

Shallow embedding of the benchmark-orchestration and metrics-derivation
pipeline of the repository (src/general_utils.py, src/main.py,
src/generate_report.py), together with theorems settling the frozen claims.

Modelling conventions:
* Python `dict` values are ordered association lists (`PyDict`): insertion
  order is preserved, assignment to an existing key overwrites in place,
  `setdefault` appends at the end when the key is absent.
* Python `float` arithmetic is modelled over `ℚ` (exact rationals); the
  numeric literals appearing in the program ("1.0", "0.0", times parsed
  from run output) are all exactly representable.
* A raised Python exception is modelled as `Except.error`; normal return as
  `Except.ok`.
* External subprocess calls (`mpicc`, `mpirun`) are modelled by passing the
  collaborator's observable outcome (exit code, captured stdout/stderr) as
  an explicit argument.
-/

namespace MPIPerf

/-- A value stored in one of the result dictionaries: every value the
pipeline ever stores is either a Python `float` (modelled as `ℚ`) or a
Python `int` (modelled as `ℤ`). -/
inductive PyVal where
  | vFloat (q : ℚ)
  | vInt (n : ℤ)
  deriving DecidableEq

/-- Numeric coercion performed implicitly by Python arithmetic on a stored
value (both `int` and `float` participate in `float` arithmetic). -/
def PyVal.toQ : PyVal → ℚ
  | .vFloat q => q
  | .vInt n => (n : ℚ)

/-- A Python `dict` with string keys, as an insertion-ordered association
list. -/
abbrev PyDict := List (String × PyVal)

/-- Python `d[k] = v`: overwrite in place if the key exists, else append. -/
def dsetVal : PyDict → String → PyVal → PyDict
  | [], k, v => [(k, v)]
  | (k0, v0) :: rest, k, v =>
    if k0 = k then (k, v) :: rest else (k0, v0) :: dsetVal rest k v

/-- Python `d.get(k)` / `d[k]` lookup. -/
def dfind? : PyDict → String → Option PyVal
  | [], _ => none
  | (k0, v0) :: rest, k => if k0 = k then some v0 else dfind? rest k

/-- Python `d.setdefault(k, v)`: no change when the key is present,
append `(k, v)` when absent. -/
def dsetdefault (d : PyDict) (k : String) (v : PyVal) : PyDict :=
  match dfind? d k with
  | some _ => d
  | none => d ++ [(k, v)]

/-- The keys of the dictionary, in insertion order. -/
def dkeys (d : PyDict) : List String := d.map Prod.fst

@[simp] theorem dkeys_nil : dkeys [] = [] := rfl

@[simp] theorem dkeys_cons (k : String) (v : PyVal) (d : PyDict) :
    dkeys ((k, v) :: d) = k :: dkeys d := rfl

@[simp] theorem dkeys_append (d₁ d₂ : PyDict) :
    dkeys (d₁ ++ d₂) = dkeys d₁ ++ dkeys d₂ := by
  simp [dkeys]

theorem dfind?_dsetVal_self (d : PyDict) (k : String) (v : PyVal) :
    dfind? (dsetVal d k v) k = some v := by
  induction d with
  | nil => simp [dsetVal, dfind?]
  | cons kv rest ih =>
    obtain ⟨k0, v0⟩ := kv
    by_cases h : k0 = k
    · simp [dsetVal, h, dfind?]
    · simp [dsetVal, h, dfind?, ih]

theorem dfind?_dsetVal_ne (d : PyDict) (k k' : String) (v : PyVal)
    (h : k' ≠ k) : dfind? (dsetVal d k v) k' = dfind? d k' := by
  have h' : ¬ k = k' := Ne.symm h
  induction d with
  | nil => simp [dsetVal, dfind?, h']
  | cons kv rest ih =>
    obtain ⟨k0, v0⟩ := kv
    by_cases h0 : k0 = k
    · subst h0
      simp [dsetVal, dfind?, h']
    · by_cases h1 : k0 = k'
      · simp [dsetVal, h0, dfind?, h1, h, h']
      · simp [dsetVal, h0, dfind?, h1, ih]

theorem mem_dkeys_dsetVal_self (d : PyDict) (k : String) (v : PyVal) :
    k ∈ dkeys (dsetVal d k v) := by
  induction d with
  | nil => simp [dsetVal]
  | cons kv rest ih =>
    obtain ⟨k0, v0⟩ := kv
    by_cases h : k0 = k
    · simp [dsetVal, h]
    · simp only [dsetVal, if_neg h, dkeys_cons, List.mem_cons]
      exact Or.inr ih

theorem mem_dkeys_dsetVal_of_mem (d : PyDict) (k k' : String) (v : PyVal) :
    k' ∈ dkeys d → k' ∈ dkeys (dsetVal d k v) := by
  induction d with
  | nil => intro h; simp at h
  | cons kv rest ih =>
    obtain ⟨k0, v0⟩ := kv
    intro h
    simp only [dkeys_cons, List.mem_cons] at h
    by_cases h0 : k0 = k
    · subst h0
      simp only [dsetVal, if_true, eq_self_iff_true]
      simp only [dkeys_cons, List.mem_cons]
      rcases h with h | h
      · exact Or.inl h
      · exact Or.inr h
    · simp only [dsetVal, if_neg h0, dkeys_cons, List.mem_cons]
      rcases h with h | h
      · exact Or.inl h
      · exact Or.inr (ih h)

theorem mem_dkeys_of_dfind?_some (d : PyDict) (k : String) (w : PyVal) :
    dfind? d k = some w → k ∈ dkeys d := by
  induction d with
  | nil => intro h; simp [dfind?] at h
  | cons kv rest ih =>
    obtain ⟨k0, v0⟩ := kv
    intro h
    by_cases h0 : k0 = k
    · simp [h0]
    · simp only [dfind?, if_neg h0] at h
      simp only [dkeys_cons, List.mem_cons]
      exact Or.inr (ih h)

theorem dfind?_eq_none_of_not_mem (d : PyDict) (k : String)
    (h : k ∉ dkeys d) : dfind? d k = none := by
  cases hf : dfind? d k with
  | none => rfl
  | some w => exact absurd (mem_dkeys_of_dfind?_some d k w hf) h

theorem dsetdefault_of_not_mem (d : PyDict) (k : String) (v : PyVal)
    (h : k ∉ dkeys d) : dsetdefault d k v = d ++ [(k, v)] := by
  simp [dsetdefault, dfind?_eq_none_of_not_mem d k h]

theorem dfind?_append_of_none (d₁ d₂ : PyDict) (k : String) :
    dfind? d₁ k = none → dfind? (d₁ ++ d₂) k = dfind? d₂ k := by
  induction d₁ with
  | nil => intro _; rfl
  | cons kv rest ih =>
    obtain ⟨k0, v0⟩ := kv
    intro h
    by_cases h0 : k0 = k
    · simp [dfind?, h0] at h
    · simp only [dfind?, if_neg h0] at h
      simp only [List.cons_append, dfind?, if_neg h0]
      exact ih h

theorem dfind?_append_of_some (d₁ d₂ : PyDict) (k : String) (w : PyVal) :
    dfind? d₁ k = some w → dfind? (d₁ ++ d₂) k = some w := by
  induction d₁ with
  | nil => intro h; simp [dfind?] at h
  | cons kv rest ih =>
    obtain ⟨k0, v0⟩ := kv
    intro h
    by_cases h0 : k0 = k
    · simp only [dfind?, if_pos h0] at h
      simp only [List.cons_append, dfind?, if_pos h0]
      exact h
    · simp only [dfind?, if_neg h0] at h
      simp only [List.cons_append, dfind?, if_neg h0]
      exact ih h

theorem dfind?_dsetdefault_self_of_not_mem (d : PyDict) (k : String)
    (v : PyVal) (h : k ∉ dkeys d) :
    dfind? (dsetdefault d k v) k = some v := by
  rw [dsetdefault_of_not_mem d k v h,
    dfind?_append_of_none d _ k (dfind?_eq_none_of_not_mem d k h)]
  simp [dfind?]

theorem dfind?_dsetdefault_ne (d : PyDict) (k k' : String) (v : PyVal)
    (h : k' ≠ k) : dfind? (dsetdefault d k v) k' = dfind? d k' := by
  unfold dsetdefault
  cases hf : dfind? d k with
  | some w => rfl
  | none =>
    cases hg : dfind? d k' with
    | some w => exact dfind?_append_of_some d _ k' w hg
    | none =>
      rw [dfind?_append_of_none d _ k' hg]
      simp [dfind?, Ne.symm h]

theorem mem_dkeys_dsetdefault_self (d : PyDict) (k : String) (v : PyVal) :
    k ∈ dkeys (dsetdefault d k v) := by
  unfold dsetdefault
  cases hf : dfind? d k with
  | some w => exact mem_dkeys_of_dfind?_some d k w hf
  | none => simp

theorem mem_dkeys_dsetdefault_of_mem (d : PyDict) (k k' : String)
    (v : PyVal) (h : k' ∈ dkeys d) : k' ∈ dkeys (dsetdefault d k v) := by
  unfold dsetdefault
  cases dfind? d k with
  | some w => exact h
  | none => simp [h]

theorem not_mem_dkeys_dsetdefault (d : PyDict) (k k' : String) (v : PyVal)
    (h1 : k' ∉ dkeys d) (h2 : k' ≠ k) :
    k' ∉ dkeys (dsetdefault d k v) := by
  unfold dsetdefault
  cases dfind? d k with
  | some w => exact h1
  | none => simp [h1, h2]

/-! ## Python `round(x, 6)` over exact rationals

Python's `round` rounds half to even (banker's rounding). Over the exact
rationals used in this model, `round(x, 6)` is `roundHE (x * 10^6) / 10^6`.
-/

/-- Round a rational to the nearest integer, ties to even
(the rounding used by Python's built-in `round`). -/
def roundHE (q : ℚ) : ℤ :=
  let f := ⌊q⌋
  let r := q - (f : ℚ)
  if r < 1/2 then f
  else if 1/2 < r then f + 1
  else if f % 2 = 0 then f else f + 1

/-- Python `round(q, 6)` over exact rationals. -/
def round6 (q : ℚ) : ℚ := (roundHE (q * 1000000) : ℚ) / 1000000

theorem roundHE_intCast (m : ℤ) : roundHE (m : ℚ) = m := by
  unfold roundHE
  norm_num

theorem round6_div_pow (m : ℤ) :
    round6 ((m : ℚ) / 1000000) = (m : ℚ) / 1000000 := by
  unfold round6
  rw [div_mul_cancel₀ (m : ℚ) (by norm_num : (1000000 : ℚ) ≠ 0),
    roundHE_intCast]

theorem round6_one : round6 1 = 1 := by
  have h : (1 : ℚ) = ((1000000 : ℤ) : ℚ) / 1000000 := by norm_num
  rw [h, round6_div_pow]

theorem round6_one_sub_div (n : ℤ) :
    round6 (1 - (n : ℚ) / 1000000) = 1 - (n : ℚ) / 1000000 := by
  have h : (1 : ℚ) - (n : ℚ) / 1000000 =
      ((1000000 - n : ℤ) : ℚ) / 1000000 := by
    push_cast
    ring
  rw [h, round6_div_pow]

theorem roundHE_nonneg (q : ℚ) (h : 0 ≤ q) : 0 ≤ roundHE q := by
  simp only [roundHE]
  have hf : (0 : ℤ) ≤ ⌊q⌋ := Int.floor_nonneg.mpr h
  split_ifs <;> omega

theorem roundHE_le_intCast (q : ℚ) (m : ℤ) (h : q ≤ (m : ℚ)) :
    roundHE q ≤ m := by
  have hf : ⌊q⌋ ≤ m := by
    have := Int.floor_le_floor h
    rwa [Int.floor_intCast] at this
  simp only [roundHE]
  split_ifs with h1 h2 h3
  · exact hf
  · -- here 1/2 < q - ⌊q⌋, so (⌊q⌋ : ℚ) + 1/2 < q ≤ m, hence ⌊q⌋ < m
    have hlt : ((⌊q⌋ : ℚ)) + 1/2 < (m : ℚ) := by linarith
    have : (⌊q⌋ : ℚ) < (m : ℚ) := by linarith
    have : ⌊q⌋ < m := by exact_mod_cast this
    omega
  · exact hf
  · -- tie case: q - ⌊q⌋ = 1/2 exactly, so (⌊q⌋ : ℚ) + 1/2 = q ≤ m
    have heq : q - (⌊q⌋ : ℚ) = 1/2 := le_antisymm (not_lt.mp h2) (not_lt.mp h1)
    have : (⌊q⌋ : ℚ) + 1/2 ≤ (m : ℚ) := by linarith
    have hlt : (⌊q⌋ : ℚ) < (m : ℚ) := by linarith
    have : ⌊q⌋ < m := by exact_mod_cast hlt
    omega

theorem round6_nonneg (q : ℚ) (h : 0 ≤ q) : 0 ≤ round6 q := by
  unfold round6
  have : (0 : ℤ) ≤ roundHE (q * 1000000) :=
    roundHE_nonneg _ (by positivity)
  positivity

theorem round6_le_one (q : ℚ) (h : q ≤ 1) : round6 q ≤ 1 := by
  unfold round6
  have hq : q * 1000000 ≤ ((1000000 : ℤ) : ℚ) := by
    push_cast
    nlinarith
  have hle : roundHE (q * 1000000) ≤ 1000000 := roundHE_le_intCast _ _ hq
  rw [div_le_one (by norm_num : (0 : ℚ) < 1000000)]
  exact_mod_cast hle

/-! ## The C library `algorithmslib.so`

The shared library loaded by `load_c_library` (src/general_utils.py) is
compiled from a C source that is not under src/; only its ctypes
declarations and call sites are. Its three functions are modelled from the
spec (§4.2 Metrics Engine). -/

/-- Modelled from the spec: `getSpeedup` of algorithmslib.so (only the
ctypes declaration is under src/); §4.2: "speedup = serialTimeReference /
Tp". -/
def getSpeedup (t1 tp : ℚ) : ℚ := t1 / tp

/-- Modelled from the spec: `getEfficiency` of algorithmslib.so (only the
ctypes declaration is under src/); §4.2: "efficiency = speedup /
workerCount". -/
def getEfficiency (s : ℚ) (p : ℤ) : ℚ := s / (p : ℚ)

/-- Modelled from the spec: `getFractionParallelizable` of algorithmslib.so
(only the ctypes declaration is under src/); §4.2: the Amdahl inversion
"f = (1/speedup − 1) / (1/workerCount − 1)" with speedup =
serialTimeReference / Tp. -/
def getFractionParallelizable (t1 tp : ℚ) (p : ℤ) : ℚ :=
  (1 / (t1 / tp) - 1) / (1 / (p : ℚ) - 1)

/-! ## Python string primitives

The parser (src/general_utils.py, `parse_execution_output`) uses
`str.lower`, the `in` substring test, `str.split()` (whitespace words),
`str.strip`, `str.split('\n')`, `int(...)` and `float(...)`. Each is
modelled below, directly over the character list underlying the Python
string. `int`/`float` parsing is modelled on the decimal grammar actually
exercised by the pipeline (optional sign, digits, fraction, optional
exponent); the exotic `float` spellings (`inf`, `nan`, digit underscores)
are out of the model. -/

/-- Python `str.lower()` on the underlying characters. -/
def lowerChars (cs : List Char) : List Char := cs.map Char.toLower

/-- Python `pat in s` substring test. -/
def hasSub (l pat : List Char) : Bool := decide (pat <:+: l)

/-- Split at every separator character (Python `str.split(sep)`),
keeping empty pieces. -/
def splitCharList (p : Char → Bool) : List Char → List (List Char)
  | [] => [[]]
  | c :: cs =>
    if p c then [] :: splitCharList p cs
    else
      match splitCharList p cs with
      | [] => [[c]]
      | w :: ws => (c :: w) :: ws

/-- Python `s.strip()`. -/
def pyStrip (cs : List Char) : List Char :=
  ((cs.dropWhile Char.isWhitespace).reverse.dropWhile Char.isWhitespace).reverse

/-- Python `s.split()` with no argument: whitespace-delimited words,
empty words dropped. -/
def pyWords (cs : List Char) : List (List Char) :=
  (splitCharList (fun c => c.isWhitespace) cs).filter (fun w => !w.isEmpty)

/-- Value of a digit string (most significant first). -/
def digitsToNat (cs : List Char) : ℕ :=
  cs.foldl (fun a c => a * 10 + (c.toNat - 48)) 0

/-- Python `int(token)` on a whitespace-free token: optional sign then a
nonempty run of digits; anything else raises `ValueError` (`none`). -/
def pyIntOfChars : List Char → Option ℤ
  | [] => none
  | '+' :: cs =>
    if cs ≠ [] ∧ cs.all Char.isDigit then some (digitsToNat cs) else none
  | '-' :: cs =>
    if cs ≠ [] ∧ cs.all Char.isDigit then some (-(digitsToNat cs : ℤ)) else none
  | cs =>
    if cs.all Char.isDigit then some (digitsToNat cs) else none

/-- Unsigned decimal mantissa: `digits[.digits]`, `digits.`, or `.digits`;
`none` on anything else (Python `float` raises `ValueError`). -/
def pyMantissa? (cs : List Char) : Option ℚ :=
  let ip := cs.takeWhile (fun c => c ≠ '.')
  let rest := cs.dropWhile (fun c => c ≠ '.')
  match rest with
  | [] =>
    if ip ≠ [] ∧ ip.all Char.isDigit then some (digitsToNat ip) else none
  | _ :: fp =>
    if (ip ≠ [] ∨ fp ≠ []) ∧ ip.all Char.isDigit ∧ fp.all Char.isDigit then
      some ((digitsToNat ip : ℚ) + (digitsToNat fp : ℚ) / 10 ^ fp.length)
    else none

/-- Unsigned Python float literal: mantissa with optional `e`-exponent
(tokens reaching `float(...)` in the parser are already lowercased). -/
def pyFloatPos? (cs : List Char) : Option ℚ :=
  let mant := cs.takeWhile (fun c => c ≠ 'e')
  let rest := cs.dropWhile (fun c => c ≠ 'e')
  match rest with
  | [] => pyMantissa? mant
  | _ :: ex =>
    match pyMantissa? mant, pyIntOfChars ex with
    | some m, some e =>
      some (if 0 ≤ e then m * 10 ^ e.toNat else m / 10 ^ (-e).toNat)
    | _, _ => none

/-- Python `float(token)` on a whitespace-free token. -/
def pyFloatOfChars : List Char → Option ℚ
  | '+' :: r => pyFloatPos? r
  | '-' :: r => (pyFloatPos? r).map Neg.neg
  | r => pyFloatPos? r

/-! ## The metrics engine: `add_all_stats_to_results`
(src/general_utils.py, lines 68–109). -/

/-- Python `max(0.0, min(1.0, fp))` from line 108. -/
def clamp01 (q : ℚ) : ℚ := max 0 (min 1 q)

/-- The per-rank times collected on lines 79–82:
values whose key lowercases to something starting with `"rank"`
(every stored value is an `int` or `float`, so the `isinstance` test on
the value always passes). -/
def parallelTimes (results : PyDict) : List ℚ :=
  results.filterMap fun kv =>
    if ['r', 'a', 'n', 'k'].isPrefixOf (lowerChars kv.1.data) then
      some kv.2.toQ
    else none

/-- Python `max(list)` (the list is checked non-empty before the call). -/
def pyMax : List ℚ → ℚ
  | [] => 0
  | x :: xs => xs.foldl max x

/-- `add_all_stats_to_results(lib, results, np, serial_time)`
(src/general_utils.py, lines 68–109), returning the updated dictionary. -/
def add_all_stats_to_results (results : PyDict) (np : ℤ)
    (serial_time : Option ℚ) : PyDict :=
  match serial_time with
  | none =>
    -- First (serial) pass reports serial metrics only
    let r1 := dsetdefault results "speedup" (.vFloat 1)
    let r2 := dsetdefault r1 "efficiency" (.vFloat 1)
    let r3 := dsetdefault r2 "fp" (.vFloat 0)
    let fpv := ((dfind? r3 "fp").getD (.vFloat 0)).toQ
    dsetVal r3 "fs" (.vFloat (round6 (1 - fpv)))
  | some st =>
    let parallel_times := parallelTimes results
    if parallel_times = [] then
      -- Fallback if nothing parsed for ranks
      dsetVal (dsetVal (dsetVal (dsetVal results
        "speedup" (.vFloat 1)) "efficiency" (.vFloat 1))
        "fp" (.vFloat 0)) "fs" (.vFloat 1)
    else
      let Tp := pyMax parallel_times
      if Tp ≤ 0 then
        dsetVal (dsetVal (dsetVal (dsetVal results
          "speedup" (.vFloat 1)) "efficiency" (.vFloat 1))
          "fp" (.vFloat 0)) "fs" (.vFloat 1)
      else
        let S := getSpeedup st Tp
        let E := getEfficiency S np
        let fp := getFractionParallelizable st Tp np
        let fpR := round6 (clamp01 fp)
        dsetVal (dsetVal (dsetVal (dsetVal results
          "speedup" (.vFloat (round6 S))) "efficiency" (.vFloat (round6 E)))
          "fp" (.vFloat fpR)) "fs" (.vFloat (round6 (1 - fpR)))

/-! ## The output parser: `parse_execution_output`
(src/general_utils.py, lines 38–66). -/

/-- The body of the `for line in lines` loop (lines 42–61), on one line.
`int(parts[5])`, `float(parts[-1])` and `int(parts[-1])` raise
`IndexError`/`ValueError` when the line does not have the expected shape;
a raised exception is an `Except.error`. -/
def processLine (results : PyDict) (line0 : List Char) :
    Except String PyDict :=
  let line := lowerChars line0
  if hasSub line ['t', 'i', 'm', 'e'] then
    if hasSub line ['m', 'p', 'i'] then
      let parts := pyWords line
      match parts.get? 5 with
      | none => .error "IndexError: list index out of range"
      | some rankTok =>
        match pyIntOfChars rankTok with
        | none => .error "ValueError: invalid literal for int"
        | some rank =>
          match parts.getLast? with
          | none => .error "IndexError: list index out of range"
          | some timeTok =>
            match pyFloatOfChars timeTok with
            | none => .error "ValueError: could not convert string to float"
            | some t =>
              .ok (dsetVal results ("rank " ++ toString rank) (.vFloat t))
    else if hasSub line ['s', 'e', 'r', 'i', 'a', 'l'] then
      let parts := pyWords line
      match parts.getLast? with
      | none => .error "IndexError: list index out of range"
      | some timeTok =>
        match pyFloatOfChars timeTok with
        | none => .error "ValueError: could not convert string to float"
        | some t => .ok (dsetVal results "serial" (.vFloat t))
    else .ok results
  else if hasSub line ['s', 'u', 'm', 'm', 'a', 't', 'i', 'o', 'n'] then
    let parts := pyWords line
    match parts.getLast? with
    | none => .error "IndexError: list index out of range"
    | some tok =>
      match pyIntOfChars tok with
      | none => .error "ValueError: invalid literal for int"
      | some n => .ok (dsetVal results "total" (.vInt n))
  else .ok results

/-- The whole `for` loop, threading the results dictionary; the first
raised exception aborts the loop. -/
def parseLines : PyDict → List (List Char) → Except String PyDict
  | d, [] => .ok d
  | d, l :: ls =>
    match processLine d l with
    | .error e => .error e
    | .ok d2 => parseLines d2 ls

/-- Executable string comparison, Python's `str` order (lexicographic on
code points). -/
def charListLe : List Char → List Char → Bool
  | [], _ => true
  | _ :: _, [] => false
  | a :: as, b :: bs =>
    if a < b then true else if b < a then false else charListLe as bs

/-- The Python sort key `lambda x: (isinstance(x[0], int), x[0])` from
line 66. Every key the parser or the metrics engine creates is a string,
so the first tuple component is always `False`. -/
def pySortKey (k : String) : Bool × String := (false, k)

/-- Python `<=` on the `(bool, str)` sort-key tuples (lexicographic tuple
comparison). -/
def pyTupleLe (x y : Bool × String) : Prop :=
  x.1 < y.1 ∨ (x.1 = y.1 ∧ charListLe x.2.data y.2.data = true)

/-- The comparison `sorted(results.items(), key=...)` sorts by. -/
def entryLe (x y : String × PyVal) : Prop :=
  pyTupleLe (pySortKey x.1) (pySortKey y.1)

instance : DecidableRel entryLe := fun x y => by
  unfold entryLe pyTupleLe pySortKey
  infer_instance

/-- `dict(sorted(results.items(), key=lambda x: (isinstance(x[0], int),
x[0])))` from line 66 (`sorted` is a stable comparison sort; the keys of a
dict are distinct, so any stable sort gives this result). -/
def sortDict (d : PyDict) : PyDict := List.insertionSort entryLe d

/-- `output.strip().split('\n')` (line 40). -/
def linesOf (output : String) : List (List Char) :=
  splitCharList (fun c => c = '\n') (pyStrip output.data)

/-- `parse_execution_output(lib, output, np, serial_time)`
(src/general_utils.py, lines 38–66). -/
def parse_execution_output (output : String) (np : ℤ)
    (serial_time : Option ℚ) : Except String PyDict :=
  match parseLines [] (linesOf output) with
  | .error e => .error e
  | .ok results => .ok (sortDict (add_all_stats_to_results results np serial_time))

/-- A line is *matched* when the parser's marker tests select one of the
three extraction branches (lines 45–61); unmatched lines fall through with
the dictionary unchanged. -/
def lineMatched (line0 : List Char) : Bool :=
  let line := lowerChars line0
  (hasSub line ['t', 'i', 'm', 'e'] &&
      (hasSub line ['m', 'p', 'i'] || hasSub line ['s', 'e', 'r', 'i', 'a', 'l'])) ||
    (!hasSub line ['t', 'i', 'm', 'e'] &&
      hasSub line ['s', 'u', 'm', 'm', 'a', 't', 'i', 'o', 'n'])

/-- A line is *well formed* when the tokens the selected branch extracts
exist and parse at the expected types, so the branch completes without
raising: a per-worker timing line needs a sixth token that is an `int` and
a numeric last token; a serial timing line a numeric last token; a total
line an `int` last token; unmatched lines are vacuously well formed. -/
def lineWF (line0 : List Char) : Bool :=
  let line := lowerChars line0
  if hasSub line ['t', 'i', 'm', 'e'] then
    if hasSub line ['m', 'p', 'i'] then
      match (pyWords line).get? 5 with
      | none => false
      | some rankTok =>
        match pyIntOfChars rankTok with
        | none => false
        | some _ =>
          match (pyWords line).getLast? with
          | none => false
          | some timeTok => (pyFloatOfChars timeTok).isSome
    else if hasSub line ['s', 'e', 'r', 'i', 'a', 'l'] then
      match (pyWords line).getLast? with
      | none => false
      | some timeTok => (pyFloatOfChars timeTok).isSome
    else true
  else if hasSub line ['s', 'u', 'm', 'm', 'a', 't', 'i', 'o', 'n'] then
    match (pyWords line).getLast? with
    | none => false
    | some tok => (pyIntOfChars tok).isSome
  else true

/-! ## The build step: `compile_mpi_program`
(src/general_utils.py, lines 12–20). -/

/-- Python `filename.replace('.c', '')` (line 15): delete every
(left-to-right, non-overlapping) occurrence of the two-character substring
`".c"`. -/
def dropDotC : List Char → List Char
  | [] => []
  | [c] => [c]
  | c1 :: c2 :: rest =>
    if c1 = '.' ∧ c2 = 'c' then dropDotC rest
    else c1 :: dropDotC (c2 :: rest)

/-- The executable name the build step derives (line 15):
`executable = filename.replace('.c', '')`. -/
def derive_executable (filename : String) : String :=
  String.mk (dropDotC filename.data)

/-- What the spec claims the derivation is (§6: "strip the standard source
extension"): remove a single trailing `".c"`. Stated from the spec's words
for comparison with `derive_executable`, which is taken from the source. -/
def specStripExtension (filename : String) : String :=
  if filename.data.reverse.take 2 = ['c', '.'] then
    String.mk (filename.data.dropLast.dropLast)
  else filename

/-- Outcome of `compile_mpi_program` as observable by the caller. -/
inductive BuildResult where
  | built (executable : String)
  | processExit (code : ℕ)
  deriving DecidableEq

/-- `compile_mpi_program(filename)` (src/general_utils.py, lines 12–20):
sets the global `executable` from the filename, runs `mpicc` (whose exit
code is the `compilerExitCode` argument here); `subprocess.run(...,
check=True)` raises `CalledProcessError` on a non-zero exit, which the
`except` clause turns into `print` + `exit(1)` — a process exit, not an
error value returned to the caller. -/
def compile_mpi_program (filename : String) (compilerExitCode : ℤ) :
    BuildResult :=
  if compilerExitCode = 0 then .built (derive_executable filename)
  else .processExit 1

/-! ## The execution driver: `run_executable`
(src/general_utils.py, lines 22–36). -/

/-- The observable outcome of the `mpirun` subprocess
(`subprocess.run(cmd, capture_output=True, text=True)`). -/
structure LaunchResult where
  returncode : ℤ
  stdout : String
  stderr : String

/-- The command list built on line 24. -/
def mpirunCmd (executable : String) (x np : ℤ) : List String :=
  ["mpirun", "--use-hwthread-cpus", "-np", toString np,
    "./" ++ executable, toString x]

/-- The `RuntimeError` message assembled on lines 29–34. -/
def executionFailureMsg (cmd : List String) (returncode : ℤ)
    (out err : String) : String :=
  "Command failed: " ++ String.intercalate " " cmd ++
    ("\nExit code: " ++ toString returncode ++
      ("\n\n--- STDOUT ---\n" ++ out ++
        ("\n--- STDERR ---\n" ++ err ++ "\n")))

/-- `run_executable(lib, x, np)` (src/general_utils.py, lines 22–36),
with the current global `executable` and the launch facility's outcome
passed explicitly: returns `result.stdout` on exit code 0, otherwise
raises `RuntimeError` with the assembled message. -/
def run_executable (executable : String) (x np : ℤ)
    (launch : LaunchResult) : Except String String :=
  let cmd := mpirunCmd executable x np
  if launch.returncode = 0 then .ok launch.stdout
  else .error
    (executionFailureMsg cmd launch.returncode launch.stdout launch.stderr)

/-! ## Worker-count normalization in the analysis endpoint
(`get_analysis`, src/main.py lines 43–47). -/

/-- Lines 44–47: `if 1 in numP: numP = [1] + [p for p in numP if p != 1]
else: numP = [1] + list(numP)`. -/
def normalizeNumP (numP : List ℤ) : List ℤ :=
  if 1 ∈ numP then 1 :: numP.filter (fun p => p ≠ 1)
  else 1 :: numP

/-! ## Helper lemmas for the build step and the execution driver -/

theorem dropLast_append_one (l : List Char) (a : Char) :
    (l ++ [a]).dropLast = l := by
  induction l with
  | nil => rfl
  | cons b bs ih =>
    cases bs with
    | nil => rfl
    | cons c cs =>
      simp only [List.cons_append, List.dropLast, List.append_eq] at ih ⊢
      rw [ih]

theorem dropDotC_append_dotc : ∀ stem : List Char,
    ¬ (['.', 'c'] <:+: stem) → dropDotC (stem ++ ['.', 'c']) = stem := by
  intro stem
  induction stem with
  | nil => intro _; rfl
  | cons c1 tail ih =>
    intro h
    cases tail with
    | nil =>
      show dropDotC [c1, '.', 'c'] = [c1]
      simp only [dropDotC]
      rw [if_neg]
      · simp [dropDotC]
      · rintro ⟨-, h2⟩
        exact absurd h2 (by decide)
    | cons c2 rest =>
      by_cases hc : c1 = '.' ∧ c2 = 'c'
      · exfalso
        apply h
        obtain ⟨h1, h2⟩ := hc
        subst h1
        subst h2
        exact ⟨[], rest, rfl⟩
      · have h' : ¬ (['.', 'c'] <:+: (c2 :: rest)) := by
          intro hin
          apply h
          obtain ⟨s, t, e⟩ := hin
          exact ⟨c1 :: s, t, by rw [List.cons_append, List.cons_append, e]⟩
        show dropDotC (c1 :: c2 :: (rest ++ ['.', 'c'])) = c1 :: c2 :: rest
        simp only [dropDotC, if_neg hc]
        rw [show c2 :: (rest ++ ['.', 'c']) = (c2 :: rest) ++ ['.', 'c'] from rfl,
          ih h']

theorem specStripExtension_append_dotc (stem : List Char) :
    specStripExtension (String.mk (stem ++ ['.', 'c'])) = String.mk stem := by
  unfold specStripExtension
  rw [if_pos]
  · congr 1
    rw [show stem ++ ['.', 'c'] = (stem ++ ['.']) ++ ['c'] by
        rw [List.append_assoc]; rfl,
      dropLast_append_one, dropLast_append_one]
  · rw [List.reverse_append]
    rfl

/-- `sub` occurs as a contiguous substring of `s`. -/
def strContains (s sub : String) : Prop := sub.data <:+: s.data

theorem strContains_self (s : String) : strContains s s :=
  ⟨[], [], by simp⟩

theorem string_data_append (s t : String) : (s ++ t).data = s.data ++ t.data :=
  rfl

theorem strContains_left (s t b : String) (h : strContains t b) :
    strContains (s ++ t) b := by
  unfold strContains at h ⊢
  rw [string_data_append]
  exact h.trans (List.IsSuffix.isInfix (List.suffix_append s.data t.data))

theorem strContains_right (s t b : String) (h : strContains s b) :
    strContains (s ++ t) b := by
  unfold strContains at h ⊢
  rw [string_data_append]
  exact h.trans (List.IsPrefix.isInfix (List.prefix_append s.data t.data))

/-! ## Claims C3, C6, C7, C8 -/

/-- C3: for every `workerCounts` (`numP`) list submitted to the analysis
endpoint, the normalization of `get_analysis` (src/main.py lines 43–47)
produces a list whose first element is `1` — inserted if absent, moved to
the front if present elsewhere — with the relative order of the other
counts preserved (the tail is the order-preserving filter of the request);
in particular `[4, 1, 8]` normalizes to `[1, 4, 8]` and `[4, 8]`
normalizes to `[1, 4, 8]`. -/
theorem c3_normalize_workerCounts :
    (∀ numP : List ℤ,
      normalizeNumP numP = 1 :: numP.filter (fun p => p ≠ 1) ∧
      (numP.filter (fun p => p ≠ 1)).Sublist numP) ∧
    normalizeNumP [4, 1, 8] = [1, 4, 8] ∧
    normalizeNumP [4, 8] = [1, 4, 8] := by
  refine ⟨fun numP => ⟨?_, List.filter_sublist numP⟩, by decide, by decide⟩
  unfold normalizeNumP
  split_ifs with h
  · rfl
  · congr 1
    symm
    rw [List.filter_eq_self]
    intro a ha
    simp only [ne_eq, decide_eq_true_eq]
    intro h1
    subst h1
    exact h ha

/-- C6 counterexample: when the compiler exits non-zero, `compile_mpi_program`
(src/general_utils.py lines 12–20) terminates the process (`exit(1)`), so at
filename `"summation.c"` with compiler exit code 1 the outcome is a process
exit with status 1 — not a distinct `BuildFailure` error value returned to
the caller, contrary to the claim. -/
theorem c6_counterexample :
    compile_mpi_program "summation.c" 1 = .processExit 1 := by decide

/-- C6 amended: when the build step's compiler invocation fails (any
non-zero compiler exit code), the failure is surfaced as a process exit
with status 1 (after printing a diagnostic), not as a distinct error value
returned to the caller. -/
theorem c6_build_failure_exits_process (filename : String) (code : ℤ)
    (h : code ≠ 0) : compile_mpi_program filename code = .processExit 1 := by
  unfold compile_mpi_program
  rw [if_neg h]

/-- Witness for C6 amended at a concrete input. -/
theorem c6_build_failure_exits_process_witness :
    compile_mpi_program "summation.c" 2 = .processExit 1 :=
  c6_build_failure_exits_process "summation.c" 2 (by decide)

/-- C7 counterexample: the build step derives the executable name with
`filename.replace('.c', '')`, which deletes **every** occurrence of
`".c"`, not only a trailing extension: for filename `"a.c.c"` the derived
name is `"a"`, whereas stripping the trailing `".c"` (the spec's
derivation) gives `"a.c"`. -/
theorem c7_counterexample :
    derive_executable "a.c.c" = "a" ∧ specStripExtension "a.c.c" = "a.c" ∧
    ("a" : String) ≠ "a.c" := by
  refine ⟨by decide, by decide, by decide⟩

/-- C7 amended: the build step derives the executable name by deleting
every occurrence of the substring `".c"` from the filename; for every
filename of the conventional shape `stem + ".c"` where `".c"` does not
occur inside the stem, this agrees with the spec's derivation (stripping
the trailing source extension) and yields the stem. -/
theorem c7_strip_extension_on_clean_names (stem : List Char)
    (h : ¬ (['.', 'c'] <:+: stem)) :
    derive_executable (String.mk (stem ++ ['.', 'c'])) = String.mk stem ∧
    specStripExtension (String.mk (stem ++ ['.', 'c'])) =
      derive_executable (String.mk (stem ++ ['.', 'c'])) := by
  have hd : derive_executable (String.mk (stem ++ ['.', 'c'])) =
      String.mk stem := by
    unfold derive_executable
    rw [show (String.mk (stem ++ ['.', 'c'])).data = stem ++ ['.', 'c']
      from rfl, dropDotC_append_dotc stem h]
  exact ⟨hd, by rw [hd, specStripExtension_append_dotc]⟩

/-- Witness for C7 amended at the repository's own source name
`summation.c`. -/
theorem c7_strip_extension_on_clean_names_witness :
    derive_executable (String.mk ("summation".data ++ ['.', 'c'])) =
      String.mk "summation".data ∧
    specStripExtension (String.mk ("summation".data ++ ['.', 'c'])) =
      derive_executable (String.mk ("summation".data ++ ['.', 'c'])) :=
  c7_strip_extension_on_clean_names "summation".data (by decide)

/-- C8: whenever the launch facility exits non-zero, `run_executable`
(src/general_utils.py lines 22–36) raises (returns `.error`, never `.ok`),
and the raised message carries the attempted command, the exit code, the
captured standard output and the captured standard error as substrings. -/
theorem c8_execution_failure_surfaced (exe : String) (x np : ℤ)
    (launch : LaunchResult) (h : launch.returncode ≠ 0) :
    run_executable exe x np launch =
      .error (executionFailureMsg (mpirunCmd exe x np) launch.returncode
        launch.stdout launch.stderr) ∧
    strContains
      (executionFailureMsg (mpirunCmd exe x np) launch.returncode
        launch.stdout launch.stderr)
      (String.intercalate " " (mpirunCmd exe x np)) ∧
    strContains
      (executionFailureMsg (mpirunCmd exe x np) launch.returncode
        launch.stdout launch.stderr)
      (toString launch.returncode) ∧
    strContains
      (executionFailureMsg (mpirunCmd exe x np) launch.returncode
        launch.stdout launch.stderr)
      launch.stdout ∧
    strContains
      (executionFailureMsg (mpirunCmd exe x np) launch.returncode
        launch.stdout launch.stderr)
      launch.stderr := by
  refine ⟨?_, ?_, ?_, ?_, ?_⟩
  · unfold run_executable
    rw [if_neg h]
  · unfold executionFailureMsg
    exact strContains_right _ _ _ (strContains_left _ _ _ (strContains_self _))
  · unfold executionFailureMsg
    refine strContains_left _ _ _ ?_
    exact strContains_right _ _ _ (strContains_left _ _ _ (strContains_self _))
  · unfold executionFailureMsg
    refine strContains_left _ _ _ (strContains_left _ _ _ ?_)
    exact strContains_right _ _ _ (strContains_left _ _ _ (strContains_self _))
  · unfold executionFailureMsg
    refine strContains_left _ _ _ (strContains_left _ _ _
      (strContains_left _ _ _ ?_))
    exact strContains_right _ _ _ (strContains_left _ _ _ (strContains_self _))

/-- Witness for C8 at a concrete failed launch. -/
theorem c8_execution_failure_surfaced_witness :
    run_executable "summation" 50000 4 ⟨1, "partial out", "mpi error"⟩ =
      .error (executionFailureMsg (mpirunCmd "summation" 50000 4) 1
        "partial out" "mpi error") ∧
    strContains
      (executionFailureMsg (mpirunCmd "summation" 50000 4) 1
        "partial out" "mpi error")
      (String.intercalate " " (mpirunCmd "summation" 50000 4)) ∧
    strContains
      (executionFailureMsg (mpirunCmd "summation" 50000 4) 1
        "partial out" "mpi error")
      (toString (1 : ℤ)) ∧
    strContains
      (executionFailureMsg (mpirunCmd "summation" 50000 4) 1
        "partial out" "mpi error")
      "partial out" ∧
    strContains
      (executionFailureMsg (mpirunCmd "summation" 50000 4) 1
        "partial out" "mpi error")
      "mpi error" :=
  c8_execution_failure_surfaced "summation" 50000 4
    ⟨1, "partial out", "mpi error"⟩ (by decide)

/-! ## Branch lemmas for the metrics engine -/

theorem clamp01_nonneg (q : ℚ) : 0 ≤ clamp01 q := le_max_left 0 (min 1 q)

theorem clamp01_le_one (q : ℚ) : clamp01 q ≤ 1 :=
  max_le (by norm_num) (min_le_left 1 q)

theorem add_stats_serial_speedup (d : PyDict) (np : ℤ)
    (hsp : "speedup" ∉ dkeys d) :
    dfind? (add_all_stats_to_results d np none) "speedup" =
      some (.vFloat 1) := by
  simp only [add_all_stats_to_results]
  rw [dfind?_dsetVal_ne _ _ _ _ (by decide),
    dfind?_dsetdefault_ne _ _ _ _ (by decide),
    dfind?_dsetdefault_ne _ _ _ _ (by decide)]
  exact dfind?_dsetdefault_self_of_not_mem _ _ _ hsp

theorem add_stats_serial_efficiency (d : PyDict) (np : ℤ)
    (heff : "efficiency" ∉ dkeys d) :
    dfind? (add_all_stats_to_results d np none) "efficiency" =
      some (.vFloat 1) := by
  simp only [add_all_stats_to_results]
  rw [dfind?_dsetVal_ne _ _ _ _ (by decide),
    dfind?_dsetdefault_ne _ _ _ _ (by decide)]
  exact dfind?_dsetdefault_self_of_not_mem _ _ _
    (not_mem_dkeys_dsetdefault _ _ _ _ heff (by decide))

theorem add_stats_serial_fp_fs (d : PyDict) (np : ℤ)
    (hfp : "fp" ∉ dkeys d) :
    dfind? (add_all_stats_to_results d np none) "fp" = some (.vFloat 0) ∧
    dfind? (add_all_stats_to_results d np none) "fs" = some (.vFloat 1) := by
  have hfp2 : "fp" ∉
      dkeys (dsetdefault (dsetdefault d "speedup" (.vFloat 1))
        "efficiency" (.vFloat 1)) :=
    not_mem_dkeys_dsetdefault _ _ _ _
      (not_mem_dkeys_dsetdefault _ _ _ _ hfp (by decide)) (by decide)
  have hfind : dfind?
      (dsetdefault (dsetdefault (dsetdefault d "speedup" (.vFloat 1))
        "efficiency" (.vFloat 1)) "fp" (.vFloat 0)) "fp" =
      some (.vFloat 0) :=
    dfind?_dsetdefault_self_of_not_mem _ _ _ hfp2
  constructor
  · simp only [add_all_stats_to_results]
    rw [dfind?_dsetVal_ne _ _ _ _ (by decide)]
    exact hfind
  · simp only [add_all_stats_to_results]
    rw [dfind?_dsetVal_self, hfind]
    simp [PyVal.toQ, round6_one]

theorem add_stats_default_entries (d : PyDict) (np : ℤ) (st : ℚ)
    (h : parallelTimes d = [] ∨ pyMax (parallelTimes d) ≤ 0) :
    dfind? (add_all_stats_to_results d np (some st)) "speedup" =
      some (.vFloat 1) ∧
    dfind? (add_all_stats_to_results d np (some st)) "efficiency" =
      some (.vFloat 1) ∧
    dfind? (add_all_stats_to_results d np (some st)) "fp" =
      some (.vFloat 0) ∧
    dfind? (add_all_stats_to_results d np (some st)) "fs" =
      some (.vFloat 1) := by
  have hreduce : add_all_stats_to_results d np (some st) =
      dsetVal (dsetVal (dsetVal (dsetVal d
        "speedup" (.vFloat 1)) "efficiency" (.vFloat 1))
        "fp" (.vFloat 0)) "fs" (.vFloat 1) := by
    by_cases h1 : parallelTimes d = []
    · simp only [add_all_stats_to_results]
      rw [if_pos h1]
    · have h2 : pyMax (parallelTimes d) ≤ 0 := h.resolve_left h1
      simp only [add_all_stats_to_results]
      rw [if_neg h1, if_pos h2]
  rw [hreduce]
  refine ⟨?_, ?_, ?_, ?_⟩
  · rw [dfind?_dsetVal_ne _ _ _ _ (by decide),
      dfind?_dsetVal_ne _ _ _ _ (by decide),
      dfind?_dsetVal_ne _ _ _ _ (by decide), dfind?_dsetVal_self]
  · rw [dfind?_dsetVal_ne _ _ _ _ (by decide),
      dfind?_dsetVal_ne _ _ _ _ (by decide), dfind?_dsetVal_self]
  · rw [dfind?_dsetVal_ne _ _ _ _ (by decide), dfind?_dsetVal_self]
  · rw [dfind?_dsetVal_self]

theorem add_stats_main_entries (d : PyDict) (np : ℤ) (st : ℚ)
    (h1 : parallelTimes d ≠ []) (h2 : 0 < pyMax (parallelTimes d)) :
    dfind? (add_all_stats_to_results d np (some st)) "speedup" =
      some (.vFloat (round6 (getSpeedup st (pyMax (parallelTimes d))))) ∧
    dfind? (add_all_stats_to_results d np (some st)) "efficiency" =
      some (.vFloat (round6 (getEfficiency
        (getSpeedup st (pyMax (parallelTimes d))) np))) ∧
    dfind? (add_all_stats_to_results d np (some st)) "fp" =
      some (.vFloat (round6 (clamp01 (getFractionParallelizable st
        (pyMax (parallelTimes d)) np)))) ∧
    dfind? (add_all_stats_to_results d np (some st)) "fs" =
      some (.vFloat (round6 (1 - round6 (clamp01
        (getFractionParallelizable st (pyMax (parallelTimes d)) np))))) := by
  have hreduce : add_all_stats_to_results d np (some st) =
      dsetVal (dsetVal (dsetVal (dsetVal d
        "speedup" (.vFloat (round6 (getSpeedup st (pyMax (parallelTimes d))))))
        "efficiency" (.vFloat (round6 (getEfficiency
          (getSpeedup st (pyMax (parallelTimes d))) np))))
        "fp" (.vFloat (round6 (clamp01 (getFractionParallelizable st
          (pyMax (parallelTimes d)) np)))))
        "fs" (.vFloat (round6 (1 - round6 (clamp01
          (getFractionParallelizable st (pyMax (parallelTimes d)) np))))) := by
    simp only [add_all_stats_to_results]
    rw [if_neg h1, if_neg (not_le.mpr h2)]
  rw [hreduce]
  refine ⟨?_, ?_, ?_, ?_⟩
  · rw [dfind?_dsetVal_ne _ _ _ _ (by decide),
      dfind?_dsetVal_ne _ _ _ _ (by decide),
      dfind?_dsetVal_ne _ _ _ _ (by decide), dfind?_dsetVal_self]
  · rw [dfind?_dsetVal_ne _ _ _ _ (by decide),
      dfind?_dsetVal_ne _ _ _ _ (by decide), dfind?_dsetVal_self]
  · rw [dfind?_dsetVal_ne _ _ _ _ (by decide), dfind?_dsetVal_self]
  · rw [dfind?_dsetVal_self]

/-! ## Claims C2, C4, C5 -/

/-- C2: for every results dictionary with a non-empty per-worker time list
whose maximum `Tp` is positive, and every positive serial-time reference,
the metrics computation stores `speedup = serialTimeReference / Tp` and
`efficiency = speedup / workerCount`, each rounded to 6 decimal places —
and the other two outputs (`fp`, `fs`) are 6-decimal-rounded values as
well. -/
theorem c2_speedup_efficiency_formulas (d : PyDict) (np : ℤ) (st : ℚ)
    (_hst : 0 < st) (h1 : parallelTimes d ≠ [])
    (h2 : 0 < pyMax (parallelTimes d)) :
    dfind? (add_all_stats_to_results d np (some st)) "speedup" =
      some (.vFloat (round6 (st / pyMax (parallelTimes d)))) ∧
    dfind? (add_all_stats_to_results d np (some st)) "efficiency" =
      some (.vFloat (round6 (st / pyMax (parallelTimes d) / (np : ℚ)))) ∧
    dfind? (add_all_stats_to_results d np (some st)) "fp" =
      some (.vFloat (round6 (clamp01 (getFractionParallelizable st
        (pyMax (parallelTimes d)) np)))) ∧
    dfind? (add_all_stats_to_results d np (some st)) "fs" =
      some (.vFloat (round6 (1 - round6 (clamp01
        (getFractionParallelizable st (pyMax (parallelTimes d)) np))))) :=
  add_stats_main_entries d np st h1 h2

/-- Witness for C2: two ranks with times 1.0 and 2.0, serial reference
4.0, worker count 2. -/
theorem c2_speedup_efficiency_formulas_witness :
    dfind? (add_all_stats_to_results
      [("rank 0", .vFloat 1), ("rank 1", .vFloat 2)] 2 (some 4)) "speedup" =
      some (.vFloat (round6 (4 / pyMax (parallelTimes
        [("rank 0", .vFloat 1), ("rank 1", .vFloat 2)])))) ∧
    dfind? (add_all_stats_to_results
      [("rank 0", .vFloat 1), ("rank 1", .vFloat 2)] 2 (some 4)) "efficiency" =
      some (.vFloat (round6 (4 / pyMax (parallelTimes
        [("rank 0", .vFloat 1), ("rank 1", .vFloat 2)]) / ((2 : ℤ) : ℚ)))) ∧
    dfind? (add_all_stats_to_results
      [("rank 0", .vFloat 1), ("rank 1", .vFloat 2)] 2 (some 4)) "fp" =
      some (.vFloat (round6 (clamp01 (getFractionParallelizable 4
        (pyMax (parallelTimes [("rank 0", .vFloat 1), ("rank 1", .vFloat 2)]))
        2)))) ∧
    dfind? (add_all_stats_to_results
      [("rank 0", .vFloat 1), ("rank 1", .vFloat 2)] 2 (some 4)) "fs" =
      some (.vFloat (round6 (1 - round6 (clamp01 (getFractionParallelizable 4
        (pyMax (parallelTimes [("rank 0", .vFloat 1), ("rank 1", .vFloat 2)]))
        2))))) :=
  c2_speedup_efficiency_formulas
    [("rank 0", .vFloat 1), ("rank 1", .vFloat 2)] 2 4
    (by decide) (by decide) (by decide)

/-- C4: whenever the metrics computation is given no serial-time reference,
or the per-worker time list is empty, or its maximum `Tp` is not positive,
it stores the fixed defaults `speedup = 1.0`, `efficiency = 1.0`,
`fp = 0.0`, `fs = 1.0` (performing no speedup arithmetic). The freshness
hypotheses say the dictionary does not already carry metric keys, which
holds for every dictionary the parser hands to this computation. -/
theorem c4_degenerate_defaults (d : PyDict) (np : ℤ) (st : Option ℚ)
    (hsp : "speedup" ∉ dkeys d) (heff : "efficiency" ∉ dkeys d)
    (hfp : "fp" ∉ dkeys d)
    (h : st = none ∨ parallelTimes d = [] ∨ pyMax (parallelTimes d) ≤ 0) :
    dfind? (add_all_stats_to_results d np st) "speedup" = some (.vFloat 1) ∧
    dfind? (add_all_stats_to_results d np st) "efficiency" =
      some (.vFloat 1) ∧
    dfind? (add_all_stats_to_results d np st) "fp" = some (.vFloat 0) ∧
    dfind? (add_all_stats_to_results d np st) "fs" = some (.vFloat 1) := by
  cases st with
  | none =>
    obtain ⟨hfpv, hfsv⟩ := add_stats_serial_fp_fs d np hfp
    exact ⟨add_stats_serial_speedup d np hsp,
      add_stats_serial_efficiency d np heff, hfpv, hfsv⟩
  | some stv =>
    have h' : parallelTimes d = [] ∨ pyMax (parallelTimes d) ≤ 0 := by
      rcases h with h | h
      · exact absurd h (by simp)
      · exact h
    exact add_stats_default_entries d np stv h'

/-- Witness for C4 at the empty dictionary with no serial reference (the
serial baseline run). -/
theorem c4_degenerate_defaults_witness :
    dfind? (add_all_stats_to_results [] 1 none) "speedup" =
      some (.vFloat 1) ∧
    dfind? (add_all_stats_to_results [] 1 none) "efficiency" =
      some (.vFloat 1) ∧
    dfind? (add_all_stats_to_results [] 1 none) "fp" = some (.vFloat 0) ∧
    dfind? (add_all_stats_to_results [] 1 none) "fs" = some (.vFloat 1) :=
  c4_degenerate_defaults [] 1 none (by simp) (by simp) (by simp)
    (Or.inl rfl)

/-- C5: for every metrics computation (on a dictionary that does not
already carry an `"fp"` key — true of every dictionary the parser
produces), the stored `fp` lies in `[0, 1]` and the stored `fp` and `fs`
sum to exactly 1. -/
theorem c5_fraction_invariants (d : PyDict) (np : ℤ) (st : Option ℚ)
    (hfp : "fp" ∉ dkeys d) :
    ∃ fp fs : ℚ,
      dfind? (add_all_stats_to_results d np st) "fp" =
        some (.vFloat fp) ∧
      dfind? (add_all_stats_to_results d np st) "fs" =
        some (.vFloat fs) ∧
      0 ≤ fp ∧ fp ≤ 1 ∧ fp + fs = 1 := by
  cases st with
  | none =>
    obtain ⟨hfpv, hfsv⟩ := add_stats_serial_fp_fs d np hfp
    exact ⟨0, 1, hfpv, hfsv, le_refl 0, by norm_num, by norm_num⟩
  | some stv =>
    by_cases h1 : parallelTimes d = []
    · obtain ⟨-, -, hfpv, hfsv⟩ :=
        add_stats_default_entries d np stv (Or.inl h1)
      exact ⟨0, 1, hfpv, hfsv, le_refl 0, by norm_num, by norm_num⟩
    · by_cases h2 : pyMax (parallelTimes d) ≤ 0
      · obtain ⟨-, -, hfpv, hfsv⟩ :=
          add_stats_default_entries d np stv (Or.inr h2)
        exact ⟨0, 1, hfpv, hfsv, le_refl 0, by norm_num, by norm_num⟩
      · obtain ⟨-, -, hfpv, hfsv⟩ :=
          add_stats_main_entries d np stv h1 (not_le.mp h2)
        set f := getFractionParallelizable stv (pyMax (parallelTimes d)) np
          with hf
        have hfix : round6 (1 - round6 (clamp01 f)) = 1 - round6 (clamp01 f) := by
          have : round6 (clamp01 f) =
              ((roundHE (clamp01 f * 1000000) : ℤ) : ℚ) / 1000000 := rfl
          rw [this, round6_one_sub_div]
        refine ⟨round6 (clamp01 f), 1 - round6 (clamp01 f), hfpv, ?_, ?_, ?_, ?_⟩
        · rw [hfsv, hfix]
        · exact round6_nonneg _ (clamp01_nonneg f)
        · exact round6_le_one _ (clamp01_le_one f)
        · ring

/-- Witness for C5 at the empty dictionary with no serial reference. -/
theorem c5_fraction_invariants_witness :
    ∃ fp fs : ℚ,
      dfind? (add_all_stats_to_results [] 1 none) "fp" =
        some (.vFloat fp) ∧
      dfind? (add_all_stats_to_results [] 1 none) "fs" =
        some (.vFloat fs) ∧
      0 ≤ fp ∧ fp ≤ 1 ∧ fp + fs = 1 :=
  c5_fraction_invariants [] 1 none (by simp)

/-! ## Parser totality on well-formed lines (claim C1) -/

theorem processLine_ok_of_wf (d : PyDict) (l : List Char)
    (h : lineWF l = true) : ∃ d', processLine d l = .ok d' := by
  simp only [lineWF] at h
  simp only [processLine]
  by_cases h1 : hasSub (lowerChars l) ['t', 'i', 'm', 'e'] = true
  · rw [if_pos h1] at h ⊢
    by_cases h2 : hasSub (lowerChars l) ['m', 'p', 'i'] = true
    · rw [if_pos h2] at h ⊢
      cases hg : (pyWords (lowerChars l)).get? 5 with
      | none => simp only [hg] at h; exact absurd h (by simp)
      | some rankTok =>
        simp only [hg] at h ⊢
        cases hri : pyIntOfChars rankTok with
        | none => simp only [hri] at h; exact absurd h (by simp)
        | some rank =>
          simp only [hri] at h ⊢
          cases hlast : (pyWords (lowerChars l)).getLast? with
          | none => simp only [hlast] at h; exact absurd h (by simp)
          | some timeTok =>
            simp only [hlast] at h ⊢
            cases hfl : pyFloatOfChars timeTok with
            | none => simp only [hfl] at h; exact absurd h (by simp)
            | some t => simp only [hfl]; exact ⟨_, rfl⟩
    · rw [if_neg h2] at h ⊢
      by_cases h3 : hasSub (lowerChars l) ['s', 'e', 'r', 'i', 'a', 'l'] = true
      · rw [if_pos h3] at h ⊢
        cases hlast : (pyWords (lowerChars l)).getLast? with
        | none => simp only [hlast] at h; exact absurd h (by simp)
        | some timeTok =>
          simp only [hlast] at h ⊢
          cases hfl : pyFloatOfChars timeTok with
          | none => simp only [hfl] at h; exact absurd h (by simp)
          | some t => simp only [hfl]; exact ⟨_, rfl⟩
      · rw [if_neg h3]
        exact ⟨d, rfl⟩
  · rw [if_neg h1] at h ⊢
    by_cases h4 :
        hasSub (lowerChars l) ['s', 'u', 'm', 'm', 'a', 't', 'i', 'o', 'n'] = true
    · rw [if_pos h4] at h ⊢
      cases hlast : (pyWords (lowerChars l)).getLast? with
      | none => simp only [hlast] at h; exact absurd h (by simp)
      | some tok =>
        simp only [hlast] at h ⊢
        cases hti : pyIntOfChars tok with
        | none => simp only [hti] at h; exact absurd h (by simp)
        | some n => simp only [hti]; exact ⟨_, rfl⟩
    · rw [if_neg h4]
      exact ⟨d, rfl⟩

theorem parseLines_ok (ls : List (List Char)) :
    ∀ d : PyDict, (∀ l ∈ ls, lineWF l = true) →
      ∃ d', parseLines d ls = .ok d' := by
  induction ls with
  | nil => intro d _; exact ⟨d, rfl⟩
  | cons l ls ih =>
    intro d h
    obtain ⟨d2, hd2⟩ := processLine_ok_of_wf d l (h l (by simp))
    obtain ⟨d3, hd3⟩ := ih d2 (fun x hx => h x (by simp [hx]))
    refine ⟨d3, ?_⟩
    simp only [parseLines]
    rw [hd2]
    exact hd3

theorem processLine_unmatched (d : PyDict) (l : List Char)
    (h : lineMatched l = false) : processLine d l = .ok d := by
  simp only [lineMatched] at h
  simp only [processLine]
  cases ht : hasSub (lowerChars l) ['t', 'i', 'm', 'e'] <;>
    cases hm : hasSub (lowerChars l) ['m', 'p', 'i'] <;>
      cases hs : hasSub (lowerChars l) ['s', 'e', 'r', 'i', 'a', 'l'] <;>
        cases hsum :
          hasSub (lowerChars l) ['s', 'u', 'm', 'm', 'a', 't', 'i', 'o', 'n'] <;>
          simp_all

/-- C1 counterexample: the parser is *not* total. The raw output
`"mpi time"` matches the per-worker timing branch (it contains both
markers) but has fewer than six tokens, so `int(parts[5])` raises
`IndexError` and `parse_execution_output` propagates the exception instead
of skipping the line. -/
theorem c1_counterexample :
    parse_execution_output "mpi time" 4 none =
      .error "IndexError: list index out of range" := by decide

/-- C1 amended: lines matching none of the parser's markers are silently
ignored (the dictionary passes through unchanged), and the parser returns
a measurement without raising **provided** every matched line is well
formed — has the rank token at position 5 parseable as an `int` and a
final token parseable as the expected numeric type. A malformed matched
line raises (`IndexError`/`ValueError`) instead of being skipped. -/
theorem c1_totality_only_on_wellformed_lines :
    (∀ (output : String) (np : ℤ) (st : Option ℚ),
      (∀ l ∈ linesOf output, lineWF l = true) →
      ∃ d, parse_execution_output output np st = .ok d) ∧
    (∀ (d : PyDict) (l : List Char), lineMatched l = false →
      processLine d l = .ok d) := by
  constructor
  · intro output np st h
    obtain ⟨r, hr⟩ := parseLines_ok (linesOf output) [] h
    exact ⟨sortDict (add_all_stats_to_results r np st), by
      simp only [parse_execution_output, hr]⟩
  · exact processLine_unmatched

/-- Witness for C1 amended: a well-formed run output parses to `.ok`, and
a diagnostic line with no marker leaves the dictionary unchanged. -/
theorem c1_totality_only_on_wellformed_lines_witness :
    (∃ d, parse_execution_output "a b c d e 7 mpi time 2.5" 4 none = .ok d) ∧
    processLine [] "debug noise".data = .ok [] :=
  ⟨c1_totality_only_on_wellformed_lines.1 "a b c d e 7 mpi time 2.5" 4 none
      (by decide),
    c1_totality_only_on_wellformed_lines.2 [] "debug noise".data (by decide)⟩

/-! ## All four metric keys are always present (claim C9) -/

theorem mem4_dsetVal_chain (d : PyDict) (v1 v2 v3 v4 : PyVal) :
    "speedup" ∈ dkeys (dsetVal (dsetVal (dsetVal (dsetVal d
      "speedup" v1) "efficiency" v2) "fp" v3) "fs" v4) ∧
    "efficiency" ∈ dkeys (dsetVal (dsetVal (dsetVal (dsetVal d
      "speedup" v1) "efficiency" v2) "fp" v3) "fs" v4) ∧
    "fp" ∈ dkeys (dsetVal (dsetVal (dsetVal (dsetVal d
      "speedup" v1) "efficiency" v2) "fp" v3) "fs" v4) ∧
    "fs" ∈ dkeys (dsetVal (dsetVal (dsetVal (dsetVal d
      "speedup" v1) "efficiency" v2) "fp" v3) "fs" v4) :=
  ⟨mem_dkeys_dsetVal_of_mem _ _ _ _ (mem_dkeys_dsetVal_of_mem _ _ _ _
      (mem_dkeys_dsetVal_of_mem _ _ _ _ (mem_dkeys_dsetVal_self _ _ _))),
    mem_dkeys_dsetVal_of_mem _ _ _ _ (mem_dkeys_dsetVal_of_mem _ _ _ _
      (mem_dkeys_dsetVal_self _ _ _)),
    mem_dkeys_dsetVal_of_mem _ _ _ _ (mem_dkeys_dsetVal_self _ _ _),
    mem_dkeys_dsetVal_self _ _ _⟩

theorem mem4_add_stats (d : PyDict) (np : ℤ) (st : Option ℚ) :
    "speedup" ∈ dkeys (add_all_stats_to_results d np st) ∧
    "efficiency" ∈ dkeys (add_all_stats_to_results d np st) ∧
    "fp" ∈ dkeys (add_all_stats_to_results d np st) ∧
    "fs" ∈ dkeys (add_all_stats_to_results d np st) := by
  cases st with
  | none =>
    simp only [add_all_stats_to_results]
    refine ⟨?_, ?_, ?_, ?_⟩
    · exact mem_dkeys_dsetVal_of_mem _ _ _ _
        (mem_dkeys_dsetdefault_of_mem _ _ _ _
          (mem_dkeys_dsetdefault_of_mem _ _ _ _
            (mem_dkeys_dsetdefault_self _ _ _)))
    · exact mem_dkeys_dsetVal_of_mem _ _ _ _
        (mem_dkeys_dsetdefault_of_mem _ _ _ _
          (mem_dkeys_dsetdefault_self _ _ _))
    · exact mem_dkeys_dsetVal_of_mem _ _ _ _
        (mem_dkeys_dsetdefault_self _ _ _)
    · exact mem_dkeys_dsetVal_self _ _ _
  | some stv =>
    simp only [add_all_stats_to_results]
    split_ifs with h1 h2 <;> exact mem4_dsetVal_chain d _ _ _ _

theorem dkeys_sortDict_perm (d : PyDict) :
    (dkeys (sortDict d)).Perm (dkeys d) :=
  (List.perm_insertionSort entryLe d).map Prod.fst

/-- C9: every dictionary `parse_execution_output` returns — for any raw
output, worker count, and serial-time argument (present or absent) —
contains all four metric keys `"speedup"`, `"efficiency"`, `"fp"`, `"fs"`:
every branch of the statistics computation populates all four. -/
theorem c9_all_metric_keys_present (output : String) (np : ℤ)
    (st : Option ℚ) (d : PyDict)
    (h : parse_execution_output output np st = .ok d) :
    "speedup" ∈ dkeys d ∧ "efficiency" ∈ dkeys d ∧
    "fp" ∈ dkeys d ∧ "fs" ∈ dkeys d := by
  rw [parse_execution_output] at h
  cases hp : parseLines [] (linesOf output) with
  | error e => rw [hp] at h; exact absurd h (by simp)
  | ok r =>
    rw [hp] at h
    have hd : sortDict (add_all_stats_to_results r np st) = d := by
      injection h
    subst hd
    have hperm := dkeys_sortDict_perm (add_all_stats_to_results r np st)
    obtain ⟨m1, m2, m3, m4⟩ := mem4_add_stats r np st
    exact ⟨hperm.mem_iff.mpr m1, hperm.mem_iff.mpr m2,
      hperm.mem_iff.mpr m3, hperm.mem_iff.mpr m4⟩

/-- Witness for C9: the empty output with no serial reference. -/
theorem c9_all_metric_keys_present_witness :
    "speedup" ∈ dkeys [("efficiency", PyVal.vFloat 1), ("fp", PyVal.vFloat 0),
      ("fs", PyVal.vFloat 1), ("speedup", PyVal.vFloat 1)] ∧
    "efficiency" ∈ dkeys [("efficiency", PyVal.vFloat 1),
      ("fp", PyVal.vFloat 0), ("fs", PyVal.vFloat 1),
      ("speedup", PyVal.vFloat 1)] ∧
    "fp" ∈ dkeys [("efficiency", PyVal.vFloat 1), ("fp", PyVal.vFloat 0),
      ("fs", PyVal.vFloat 1), ("speedup", PyVal.vFloat 1)] ∧
    "fs" ∈ dkeys [("efficiency", PyVal.vFloat 1), ("fp", PyVal.vFloat 0),
      ("fs", PyVal.vFloat 1), ("speedup", PyVal.vFloat 1)] :=
  c9_all_metric_keys_present "" 1 none _ (by decide)

/-! ## The returned dictionary is sorted in plain string order (claim C10) -/

theorem charListLe_iff : ∀ as bs : List Char,
    charListLe as bs = true ↔ ¬ List.Lex (· < ·) bs as
  | [], bs => by
    simp only [charListLe]
    constructor
    · intro _ hlex
      cases hlex
    · intro _
      trivial
  | a :: as, [] => by
    simp only [charListLe]
    constructor
    · intro h
      exact absurd h (by simp)
    · intro h
      exact absurd List.Lex.nil h
  | a :: as, b :: bs => by
    simp only [charListLe]
    by_cases hab : a < b
    · rw [if_pos hab]
      constructor
      · intro _ hlex
        cases hlex with
        | cons h3 => exact absurd hab (lt_irrefl _)
        | rel h3 => exact absurd hab (asymm h3)
      · intro _
        rfl
    · by_cases hba : b < a
      · rw [if_neg hab, if_pos hba]
        constructor
        · intro hfalse
          exact absurd hfalse (by simp)
        · intro h
          exact absurd (List.Lex.rel hba) h
      · rw [if_neg hab, if_neg hba]
        have hEq : a = b :=
          le_antisymm (not_lt.mp hba) (not_lt.mp hab)
        subst hEq
        rw [charListLe_iff as bs]
        constructor
        · intro h hlex
          cases hlex with
          | cons h3 => exact h h3
          | rel h3 => exact absurd h3 (lt_irrefl _)
        · intro h hlex
          exact h (List.Lex.cons hlex)

theorem charListLe_iff_le (a b : String) :
    charListLe a.data b.data = true ↔ a ≤ b := by
  rw [String.le_iff_toList_le]
  show charListLe a.data b.data = true ↔ a.data ≤ b.data
  rw [charListLe_iff a.data b.data]
  constructor
  · intro h
    rw [← not_lt]
    exact h
  · intro h
    rw [← not_lt] at h
    exact h

theorem entryLe_iff_le (x y : String × PyVal) : entryLe x y ↔ x.1 ≤ y.1 := by
  unfold entryLe pyTupleLe pySortKey
  constructor
  · rintro (h | ⟨-, h⟩)
    · exact absurd h (lt_irrefl false)
    · exact (charListLe_iff_le _ _).mp h
  · intro h
    exact Or.inr ⟨rfl, (charListLe_iff_le _ _).mpr h⟩

instance : IsTotal (String × PyVal) entryLe :=
  ⟨fun x y => by
    rcases le_total x.1 y.1 with h | h
    · exact Or.inl ((entryLe_iff_le x y).mpr h)
    · exact Or.inr ((entryLe_iff_le y x).mpr h)⟩

instance : IsTrans (String × PyVal) entryLe :=
  ⟨fun x y z hxy hyz => (entryLe_iff_le x z).mpr
    (le_trans ((entryLe_iff_le x y).mp hxy) ((entryLe_iff_le y z).mp hyz))⟩

theorem sortDict_keys_sorted (d : PyDict) :
    (dkeys (sortDict d)).Sorted (· ≤ ·) := by
  have hs : List.Sorted entryLe (sortDict d) :=
    List.sorted_insertionSort entryLe d
  exact List.Pairwise.map Prod.fst
    (fun a b h => (entryLe_iff_le a b).mp h) hs

/-- C10: the dictionary `parse_execution_output` returns is sorted by the
key `(isinstance(key, int), key)`; since every key it creates is a string,
this comparison is exactly plain lexicographic string order (first
conjunct), so the keys of every returned dictionary are in string order
(second conjunct). In particular `"rank 10"` precedes `"rank 2"`, and the
per-rank keys are interleaved alphabetically with the `"efficiency"`,
`"fp"`, `"fs"`, `"serial"`, `"speedup"` and `"total"` keys rather than
appearing in numeric rank order (third conjunct, a full concrete run). -/
theorem c10_results_sorted_lexicographically :
    (∀ x y : String × PyVal, entryLe x y ↔ x.1 ≤ y.1) ∧
    (∀ (output : String) (np : ℤ) (st : Option ℚ) (d : PyDict),
      parse_execution_output output np st = .ok d →
      (dkeys d).Sorted (· ≤ ·)) ∧
    parse_execution_output
      "a b c d e 2 mpi time 2.0\na b c d e 10 mpi time 1.0\nserial time 4.0\nsummation total 100"
      2 (some 4) =
      .ok [("efficiency", .vFloat 1), ("fp", .vFloat 1), ("fs", .vFloat 0),
        ("rank 10", .vFloat 1), ("rank 2", .vFloat 2), ("serial", .vFloat 4),
        ("speedup", .vFloat 2), ("total", .vInt 100)] := by
  refine ⟨entryLe_iff_le, ?_, by decide⟩
  intro output np st d h
  rw [parse_execution_output] at h
  cases hp : parseLines [] (linesOf output) with
  | error e => rw [hp] at h; exact absurd h (by simp)
  | ok r =>
    rw [hp] at h
    have hd : sortDict (add_all_stats_to_results r np st) = d := by
      injection h
    subst hd
    exact sortDict_keys_sorted _

/-- Witness for C10 at a run with ranks 2 and 10: the returned keys are
sorted in string order. -/
theorem c10_results_sorted_lexicographically_witness :
    (dkeys [("efficiency", PyVal.vFloat 1), ("fp", PyVal.vFloat 1),
      ("fs", PyVal.vFloat 0), ("rank 10", PyVal.vFloat 1),
      ("rank 2", PyVal.vFloat 2), ("serial", PyVal.vFloat 4),
      ("speedup", PyVal.vFloat 2),
      ("total", PyVal.vInt 100)]).Sorted (· ≤ ·) :=
  c10_results_sorted_lexicographically.2.1
    "a b c d e 2 mpi time 2.0\na b c d e 10 mpi time 1.0\nserial time 4.0\nsummation total 100"
    2 (some 4) _ (by decide)

end MPIPerf
